import Mathlib

/-!
Shallow embedding of the note-cli note store (src/main.rs).

Modelling conventions:
* `u32` ids and `chrono::DateTime<Utc>` timestamps are modelled as `Nat`
  (no operation sequence short of 2^32 adds can overflow a `u32` id, and the
  claims under study do not concern overflow).  Each `Utc::now()` call is
  modelled by a clock-sample parameter.  `add_note` performs two such calls —
  one filling `created_at`, then one filling `updated_at` — modelled
  faithfully by `addNoteData'` with two samples; `addNoteData` is its
  equal-samples collapse, used only by claims that do not depend on the
  timestamp values.  `edit_note` performs a single call.
* The backing file is modelled by `StoreFile`, which distinguishes exactly
  the situations `load_notes` in the source distinguishes: a missing file
  (`fs::read_to_string` fails with `ErrorKind::NotFound`), a file whose
  contents trim to the empty string, a non-blank file holding valid JSON
  (represented by its `Json` value), a non-blank file that is not JSON, and
  a file whose read fails with some other I/O error.
* serde_json serialization of `NoteData` is modelled at the JSON-value level:
  `encodeNoteData` produces the document `serde_json::to_string_pretty`
  renders, and `parseNoteData` models the derived `Deserialize` impl reading
  a JSON value (an object whose named fields are looked up, unknown fields
  ignored; any other shape is rejected — in particular a JSON array with
  fewer than the struct's fields, such as `[]`, fails to deserialize).
* Rust `String` is Lean `String`; `to_lowercase` is modelled by mapping
  `Char.toLower` over the characters and `str::contains` by substring search
  (UTF-8 is self-synchronizing, so byte-level substring occurrence of valid
  text coincides with character-level occurrence).
-/

/-- Struct `Note` from src/main.rs (id: u32, content, tags, created_at, updated_at). -/
structure Note where
  id : Nat
  content : String
  tags : List String
  created_at : Nat
  updated_at : Nat
deriving DecidableEq

/-- Struct `NoteData` from src/main.rs: the whole persisted collection. -/
structure NoteData where
  notes : List Note
  free_ids : List Nat
deriving DecidableEq

/-- The `NoteData { notes: vec![], free_ids: vec![] }` value `load_notes` returns
for a missing or blank file. -/
def emptyData : NoteData := { notes := [], free_ids := [] }

/-- Enum `SortMethod` from src/main.rs. -/
inductive SortMethod where
  | id
  | date
  | update
  | content
deriving DecidableEq

/-- JSON values, the level at which serde_json (de)serialization is modelled. -/
inductive Json where
  | num (n : Nat)
  | str (s : String)
  | arr (elems : List Json)
  | obj (fields : List (String × Json))

/-- Field lookup in a JSON object, as serde's derived deserializer does by
field name (first occurrence wins). -/
def getField (fields : List (String × Json)) (k : String) : Option Json :=
  (List.find? (fun p => p.1 == k) fields).map (fun p => p.2)

/-- Deserialize a JSON number as an integer field. -/
def asNat : Json → Option Nat
  | .num n => some n
  | _ => none

/-- Deserialize a JSON string as a string field. -/
def asStr : Json → Option String
  | .str s => some s
  | _ => none

/-- Deserialize every element of a JSON array, failing if any element fails. -/
def parseList (p : Json → Option α) : List Json → Option (List α)
  | [] => some []
  | j :: js =>
    match p j, parseList p js with
    | some a, some rest => some (a :: rest)
    | _, _ => none

/-- Derived `Deserialize` for `Note`: a JSON object with the five named fields. -/
def parseNote (j : Json) : Option Note :=
  match j with
  | .obj fields =>
    match getField fields "id" >>= asNat,
          getField fields "content" >>= asStr,
          (getField fields "tags").bind
            (fun t => match t with | .arr xs => parseList asStr xs | _ => none),
          getField fields "created_at" >>= asNat,
          getField fields "updated_at" >>= asNat with
    | some i, some c, some ts, some ca, some ua =>
      some { id := i, content := c, tags := ts, created_at := ca, updated_at := ua }
    | _, _, _, _, _ => none
  | _ => none

/-- Derived `Deserialize` for `NoteData`: a JSON object with fields
`notes` (array of notes) and `free_ids` (array of integers). -/
def parseNoteData (j : Json) : Option NoteData :=
  match j with
  | .obj fields =>
    match (getField fields "notes").bind
            (fun t => match t with | .arr xs => parseList parseNote xs | _ => none),
          (getField fields "free_ids").bind
            (fun t => match t with | .arr xs => parseList asNat xs | _ => none) with
    | some ns, some fs => some { notes := ns, free_ids := fs }
    | _, _ => none
  | _ => none

/-- Derived `Serialize` for `Note`. -/
def encodeNote (n : Note) : Json :=
  .obj [("id", .num n.id), ("content", .str n.content),
        ("tags", .arr (n.tags.map Json.str)),
        ("created_at", .num n.created_at), ("updated_at", .num n.updated_at)]

/-- Derived `Serialize` for `NoteData`, the document `save_notes` writes. -/
def encodeNoteData (d : NoteData) : Json :=
  .obj [("notes", .arr (d.notes.map encodeNote)),
        ("free_ids", .arr (d.free_ids.map Json.num))]

/-- The observable states of the backing file, matching the case split made by
`load_notes` in the source. -/
inductive StoreFile where
  | missing
  | blank
  | jsonText (v : Json)
  | notJson
  | unreadable

/-- Hard errors of the persistence layer: a present, non-blank file that fails
to deserialize, or a filesystem error. -/
inductive LoadErr where
  | malformedStore
  | ioFailure
deriving DecidableEq

/-- `load_notes` from src/main.rs: missing file or blank contents yield the
empty collection; otherwise the contents are deserialized, and failure to
parse is propagated (`serde_json::from_str(&content)?`); a non-NotFound read
error is propagated as an I/O failure. -/
def load_notes (f : StoreFile) : Except LoadErr NoteData :=
  match f with
  | .missing => .ok emptyData
  | .blank => .ok emptyData
  | .jsonText v =>
    match parseNoteData v with
    | some d => .ok d
    | none => .error .malformedStore
  | .notJson => .error .malformedStore
  | .unreadable => .error .ioFailure

/-- `save_notes` from src/main.rs: serialize the collection and overwrite the
file (writes are modelled as always succeeding). -/
def save_notes (d : NoteData) : StoreFile :=
  .jsonText (encodeNoteData d)

/-- `clean_notes` from src/main.rs: `fs::write(path, "[]")`.  The two-byte
text `[]` is non-blank valid JSON, namely the empty array. -/
def clean_notes (_f : StoreFile) : StoreFile :=
  .jsonText (.arr [])

/-- Exit behavior of one CLI invocation: `main` propagates a returned `Err`
as a non-zero exit, every `Ok(())` exits zero. -/
inductive ExitStatus where
  | success
  | failure
deriving DecidableEq

/-- The in-memory mutation performed by `add_note` between its load and save:
compute the fallback id from the last stored note (`note.id + 1`, or 1 for an
empty list), then, if `free_ids` is non-empty, use `free_ids.remove(0)` (the
first element, which is removed) instead; push the new note.  Both timestamp
fields here receive the same sample `now`: this is the equal-samples collapse
of `addNoteData'` (the faithful model of the two separate `Utc::now()`
calls), adequate only for timestamp-independent properties. -/
def addNoteData (now : Nat) (content : String) (tags : List String) (d : NoteData) : NoteData :=
  let fromLast : Nat :=
    match d.notes.getLast? with
    | some note => note.id + 1
    | none => 1
  match d.free_ids with
  | [] =>
    { notes := d.notes ++ [{ id := fromLast, content := content, tags := tags,
                             created_at := now, updated_at := now }],
      free_ids := [] }
  | i :: rest =>
    { notes := d.notes ++ [{ id := i, content := content, tags := tags,
                             created_at := now, updated_at := now }],
      free_ids := rest }

/-- The in-memory mutation of `add_note` with the clock modelled faithfully:
the source fills `created_at` and `updated_at` from two separate `Utc::now()`
calls, here the samples `nowC` (taken first) and `nowU` (taken second); the
program never forces the two samples to be equal. -/
def addNoteData' (nowC nowU : Nat) (content : String) (tags : List String) (d : NoteData) : NoteData :=
  let fromLast : Nat :=
    match d.notes.getLast? with
    | some note => note.id + 1
    | none => 1
  match d.free_ids with
  | [] =>
    { notes := d.notes ++ [{ id := fromLast, content := content, tags := tags,
                             created_at := nowC, updated_at := nowU }],
      free_ids := [] }
  | i :: rest =>
    { notes := d.notes ++ [{ id := i, content := content, tags := tags,
                             created_at := nowC, updated_at := nowU }],
      free_ids := rest }

/-- `Vec::swap_remove(i)`: the element at `i` is replaced by the last element
and the last element is popped (for `i` the last index this just pops). -/
def swapRemove (l : List α) (i : Nat) : List α :=
  match l.getLast? with
  | none => l
  | some last => (l.set i last).dropLast

/-- The in-memory mutation performed by `remove_note`: locate the note by id
(`position`), fail with "ID not found" if absent, otherwise `swap_remove` it
and push its id onto `free_ids`. -/
def removeNoteData (i : Nat) (d : NoteData) : Except String NoteData :=
  match d.notes.findIdx? (fun note => note.id == i) with
  | none => .error "ID not found"
  | some index =>
    .ok { notes := swapRemove d.notes index, free_ids := d.free_ids ++ [i] }

/-- Replace the first element satisfying `p` by its image under `f`, the
effect of mutating through `iter_mut().find(..)`. -/
def updateFirst (p : α → Bool) (f : α → α) : List α → List α
  | [] => []
  | x :: xs => if p x then f x :: xs else x :: updateFirst p f xs

/-- The in-memory mutation performed by `edit_note`; the boolean records
whether `save_notes` was reached (content non-empty and note found). -/
def editNoteData (now i : Nat) (content : String) (d : NoteData) : NoteData × Bool :=
  if content.isEmpty then (d, false)
  else if d.notes.any (fun n => n.id == i) then
    ({ d with
        notes := updateFirst (fun n => n.id == i)
          (fun n => { n with content := content, updated_at := now }) d.notes },
     true)
  else (d, false)

/-- The tag loop of `add_tag`: for each input tag in order, append it unless
the note already contains it. -/
def addTagsList (tags : List String) (old : List String) : List String :=
  tags.foldl (fun acc t => if acc.contains t then acc else acc ++ [t]) old

/-- The in-memory mutation performed by `add_tag`; the boolean records whether
`save_notes` was reached (tags non-empty and note found). -/
def addTagData (i : Nat) (tags : List String) (d : NoteData) : NoteData × Bool :=
  if tags.isEmpty then (d, false)
  else if d.notes.any (fun n => n.id == i) then
    ({ d with
        notes := updateFirst (fun n => n.id == i)
          (fun n => { n with tags := addTagsList tags n.tags }) d.notes },
     true)
  else (d, false)

/-- Substring occurrence on character lists, modelling `str::contains`. -/
def listContainsSub (need : List Char) : List Char → Bool
  | [] => need.isEmpty
  | c :: rest => List.isPrefixOf need (c :: rest) || listContainsSub need rest

/-- The filter predicate of `search_note`:
`n.content.to_lowercase().contains(&keyword.to_lowercase())`. -/
def matchesKeyword (keyword : String) (n : Note) : Bool :=
  listContainsSub (keyword.toList.map Char.toLower) (n.content.toList.map Char.toLower)

/-- The comparison key used by `sort_by_key` for each `SortMethod`. -/
def noteLe (method : SortMethod) (a b : Note) : Bool :=
  match method with
  | .id => decide (a.id ≤ b.id)
  | .date => decide (a.created_at ≤ b.created_at)
  | .update => decide (a.updated_at ≤ b.updated_at)
  | .content => decide (a.content ≤ b.content)

/-- `sort_by_key` (a stable sort) under the given method. -/
def sortNotes (method : SortMethod) (l : List Note) : List Note :=
  l.mergeSort (noteLe method)

/-- The result list built by `search_note` for a non-empty keyword: filter by
case-insensitive substring match, then sort; an empty keyword only prints a
message and builds nothing. -/
def searchData (keyword : String) (method : SortMethod) (d : NoteData) : List Note :=
  if keyword.isEmpty then []
  else sortNotes method (d.notes.filter (fun n => matchesKeyword keyword n))

/-- `add_note` from src/main.rs as one load–mutate–save cycle on the file. -/
def add_note (now : Nat) (content : String) (tags : List String) (f : StoreFile) :
    StoreFile × ExitStatus :=
  match load_notes f with
  | .error _ => (f, .failure)
  | .ok d => (save_notes (addNoteData now content tags d), .success)

/-- `remove_note` from src/main.rs: a missing id is a hard error (`ok_or_else`
propagated by `?`), so the file is left unchanged and the process exits
non-zero. -/
def remove_note (i : Nat) (f : StoreFile) : StoreFile × ExitStatus :=
  match load_notes f with
  | .error _ => (f, .failure)
  | .ok d =>
    match removeNoteData i d with
    | .error _ => (f, .failure)
    | .ok d2 => (save_notes d2, .success)

/-- `edit_note` from src/main.rs: empty content and a missing note are soft
conditions — a message is printed, nothing is written, and `Ok(())` is
returned. -/
def edit_note (now i : Nat) (content : String) (f : StoreFile) :
    StoreFile × ExitStatus :=
  match load_notes f with
  | .error _ => (f, .failure)
  | .ok d =>
    let r := editNoteData now i content d
    (if r.2 then save_notes r.1 else f, .success)

/-- `add_tag` from src/main.rs: empty tag list and a missing note are soft
conditions — nothing is written and `Ok(())` is returned. -/
def add_tag (i : Nat) (tags : List String) (f : StoreFile) :
    StoreFile × ExitStatus :=
  match load_notes f with
  | .error _ => (f, .failure)
  | .ok d =>
    let r := addTagData i tags d
    (if r.2 then save_notes r.1 else f, .success)

/-- `search_note` from src/main.rs: read-only; also returns the result list
that gets rendered. -/
def search_note (keyword : String) (method : SortMethod) (f : StoreFile) :
    StoreFile × ExitStatus × List Note :=
  match load_notes f with
  | .error _ => (f, .failure, [])
  | .ok d => (f, .success, searchData keyword method d)

/-- Store operations, for reasoning about operation sequences. -/
inductive Op where
  | add (content : String) (tags : List String)
  | remove (i : Nat)
  | edit (i : Nat) (content : String)
  | addTag (i : Nat) (tags : List String)

/-- One operation applied to the file state (exit status discarded). -/
def applyFile (now : Nat) (op : Op) (f : StoreFile) : StoreFile :=
  match op with
  | .add c ts => (add_note now c ts f).1
  | .remove i => (remove_note i f).1
  | .edit i c => (edit_note now i c f).1
  | .addTag i ts => (add_tag i ts f).1

/-- Run a timestamped operation sequence against the file. -/
def runOpsFile (ops : List (Nat × Op)) (f : StoreFile) : StoreFile :=
  ops.foldl (fun g p => applyFile p.1 p.2 g) f

/-- One operation applied to the in-memory collection under the faithful
clock: the mutating part of the corresponding CLI function, leaving the
collection unchanged where the source performs no save or fails.  `add`
samples the clock twice (`tC` for `created_at`, then `tU` for `updated_at`);
`edit` samples it once (its sample written `tU`); remove and add-tag read no
clock. -/
def applyData' (tC tU : Nat) (op : Op) (d : NoteData) : NoteData :=
  match op with
  | .add c ts => addNoteData' tC tU c ts d
  | .remove i =>
    match removeNoteData i d with
    | .ok d2 => d2
    | .error _ => d
  | .edit i c => (editNoteData tU i c d).1
  | .addTag i ts => (addTagData i ts d).1

/-- Timestamp sanity at clock value `t`: every stored note was last updated no
earlier than it was created and no later than `t`. -/
def TimeInv (t : Nat) (d : NoteData) : Prop :=
  ∀ n ∈ d.notes, n.created_at ≤ n.updated_at ∧ n.updated_at ≤ t

/-- First-occurrence deduplication of a list of strings; used to state, not to
implement, what the `add_tag` loop appends. -/
def firstDedup : List String → List String
  | [] => []
  | t :: ts => t :: firstDedup (ts.filter (fun u => u != t))
termination_by l => l.length
decreasing_by
  simp only [List.length_cons]
  exact Nat.lt_succ_of_le (List.length_filter_le _ _)

/-- The six-operation sequence from the empty store that drives the free-id
fallback into producing a duplicate id: three adds, a swap-disturbing removal
of id 1, an add that reuses id 1, and a final add whose fallback reads the
(now non-maximal) last id. -/
def dupOps : List (Nat × Op) :=
  [(0, .add "a" []), (1, .add "b" []), (2, .add "c" []),
   (3, .remove 1), (4, .add "d" []), (5, .add "e" [])]

theorem parseList_asStr (ts : List String) :
    parseList asStr (ts.map Json.str) = some ts := by
  induction ts with
  | nil => rfl
  | cons t ts ih => simp [parseList, asStr, ih]

theorem parseList_asNat (ns : List Nat) :
    parseList asNat (ns.map Json.num) = some ns := by
  induction ns with
  | nil => rfl
  | cons n ns ih => simp [parseList, asNat, ih]

theorem parseNote_encodeNote (n : Note) : parseNote (encodeNote n) = some n := by
  simp [parseNote, encodeNote, getField, parseList_asStr, asNat, asStr]

theorem parseList_parseNote (ns : List Note) :
    parseList parseNote (ns.map encodeNote) = some ns := by
  induction ns with
  | nil => rfl
  | cons n ns ih => simp [parseList, parseNote_encodeNote, ih]

theorem parseNoteData_encodeNoteData (d : NoteData) :
    parseNoteData (encodeNoteData d) = some d := by
  simp [parseNoteData, encodeNoteData, getField, parseList_parseNote, parseList_asNat]

theorem find?_updateFirst (p : α → Bool) (f : α → α) (l : List α) (a : α)
    (h : l.find? p = some a) (hf : p (f a) = true) :
    (updateFirst p f l).find? p = some (f a) := by
  induction l with
  | nil => simp at h
  | cons x xs ih =>
    by_cases hx : p x = true
    · rw [List.find?_cons_of_pos _ hx] at h
      injection h with h
      subst h
      simp [updateFirst, hx, List.find?_cons_of_pos _ hf]
    · rw [List.find?_cons_of_neg _ hx] at h
      simp [updateFirst, hx, List.find?_cons_of_neg _ hx, ih h]

theorem mem_updateFirst (p : α → Bool) (f : α → α) (l : List α) (b : α)
    (hb : b ∈ updateFirst p f l) : b ∈ l ∨ ∃ a ∈ l, b = f a := by
  induction l with
  | nil => simp [updateFirst] at hb
  | cons x xs ih =>
    by_cases hx : p x = true
    · simp only [updateFirst, hx, if_true] at hb
      rcases List.mem_cons.1 hb with h | h
      · exact Or.inr ⟨x, List.mem_cons_self x xs, h⟩
      · exact Or.inl (List.mem_cons_of_mem _ h)
    · simp only [updateFirst, hx, if_false] at hb
      rcases List.mem_cons.1 hb with h | h
      · exact Or.inl (h ▸ List.mem_cons_self x xs)
      · rcases ih h with h2 | ⟨a, ha, hfa⟩
        · exact Or.inl (List.mem_cons_of_mem _ h2)
        · exact Or.inr ⟨a, List.mem_cons_of_mem _ ha, hfa⟩

theorem updateFirst_updateFirst (p : α → Bool) (f : α → α) (l : List α)
    (hp : ∀ x, p (f x) = p x) (hff : ∀ x, p x = true → f (f x) = f x) :
    updateFirst p f (updateFirst p f l) = updateFirst p f l := by
  induction l with
  | nil => rfl
  | cons x xs ih =>
    by_cases hx : p x = true
    · simp [updateFirst, hx, hp x, hff x hx]
    · simp [updateFirst, hx, ih]

theorem mem_of_mem_swapRemove (l : List α) (i : Nat) (a : α)
    (h : a ∈ swapRemove l i) : a ∈ l := by
  unfold swapRemove at h
  cases hl : l.getLast? with
  | none => rw [hl] at h; exact h
  | some last =>
    rw [hl] at h
    have h1 : a ∈ l.set i last := (List.dropLast_sublist _).mem h
    rcases List.mem_or_eq_of_mem_set h1 with h2 | h2
    · exact h2
    · subst h2
      exact List.mem_of_mem_getLast? hl

theorem mem_firstDedup (a : String) (l : List String) :
    a ∈ firstDedup l ↔ a ∈ l := by
  induction l using firstDedup.induct with
  | case1 => simp [firstDedup]
  | case2 t ts ih =>
    rw [firstDedup]
    by_cases hat : a = t
    · subst hat; simp
    · simp only [List.mem_cons, ih, List.mem_filter]
      constructor
      · rintro (h | ⟨h, _⟩)
        · exact Or.inl h
        · exact Or.inr h
      · rintro (h | h)
        · exact Or.inl h
        · refine Or.inr ⟨h, ?_⟩
          simp [bne, hat]

theorem count_firstDedup (a : String) (l : List String) :
    (firstDedup l).count a = if a ∈ l then 1 else 0 := by
  induction l using firstDedup.induct with
  | case1 => simp [firstDedup]
  | case2 t ts ih =>
    rw [firstDedup]
    by_cases hat : a = t
    · subst hat
      have hnot : a ∉ ts.filter (fun u => u != a) := by
        intro h
        simp [List.mem_filter, bne] at h
      rw [List.count_cons]
      simp [ih, hnot]
    · have hmem : a ∈ ts.filter (fun u => u != t) ↔ a ∈ ts := by
        simp only [List.mem_filter]
        constructor
        · exact fun h => h.1
        · exact fun h => ⟨h, by simp [bne, hat]⟩
      rw [List.count_cons]
      simp only [ih, hmem]
      have : (t == a) = false := beq_eq_false_iff_ne.mpr (fun h => hat h.symm)
      simp [this, hat]

theorem addTagsList_eq (tags old : List String) :
    addTagsList tags old
      = old ++ firstDedup (tags.filter (fun t => !(old.contains t))) := by
  induction tags generalizing old with
  | nil => simp [addTagsList, firstDedup]
  | cons t ts ih =>
    by_cases ht : t ∈ old
    · have step : addTagsList (t :: ts) old = addTagsList ts old := by
        simp [addTagsList, ht]
      rw [step, ih old]
      have hfil : (t :: ts).filter (fun u => !(old.contains u))
          = ts.filter (fun u => !(old.contains u)) := by
        simp [List.filter_cons, ht]
      rw [hfil]
    · have step : addTagsList (t :: ts) old = addTagsList ts (old ++ [t]) := by
        simp [addTagsList, ht]
      rw [step, ih (old ++ [t])]
      have hfil : (t :: ts).filter (fun u => !(old.contains u))
          = t :: ts.filter (fun u => !(old.contains u)) := by
        simp [List.filter_cons, ht]
      rw [hfil, firstDedup]
      rw [List.filter_filter]
      have hpred : ∀ u ∈ ts,
          (!((old ++ [t]).contains u)) = ((u != t) && !(old.contains u)) := by
        intro u _
        by_cases h2 : u = t
        · subst h2
          simp
        · by_cases h1 : u ∈ old
          · simp [h1, h2]
          · simp [h1, h2]
      rw [List.filter_congr hpred]
      simp [List.append_assoc]

theorem addTagsList_fix (tags old : List String)
    (h : ∀ t ∈ tags, t ∈ old) : addTagsList tags old = old := by
  induction tags with
  | nil => rfl
  | cons t ts ih =>
    have step : addTagsList (t :: ts) old = addTagsList ts old := by
      simp [addTagsList, h t (List.mem_cons_self t ts)]
    rw [step]
    exact ih (fun u hu => h u (List.mem_cons_of_mem _ hu))

theorem mem_addTagsList (tags old : List String) (t : String) (ht : t ∈ tags) :
    t ∈ addTagsList tags old := by
  rw [addTagsList_eq]
  by_cases h : t ∈ old
  · exact List.mem_append_left _ h
  · refine List.mem_append_right _ ?_
    rw [mem_firstDedup]
    rw [List.mem_filter]
    exact ⟨ht, by simp [h]⟩

theorem addTagsList_idem (tags old : List String) :
    addTagsList tags (addTagsList tags old) = addTagsList tags old :=
  addTagsList_fix _ _ (fun t ht => mem_addTagsList tags old t ht)

/-- Claim C1: the spec property "no two live notes ever share an id" fails on
the code: running `dupOps` (six add/remove operations from the empty store)
leaves the stored collection with live note ids [3, 2, 1, 2] — id 2 occurs
twice, because `swap_remove` moved note 3 to the front and the fallback
`last id + 1` then re-issued 2. -/
theorem C1_duplicate_id_reachable :
    (load_notes (runOpsFile dupOps StoreFile.missing)).map
        (fun d => d.notes.map Note.id) = Except.ok [3, 2, 1, 2]
      ∧ ¬ ([3, 2, 1, 2] : List Nat).Nodup := by
  constructor
  · rfl
  · decide

/-- Claim C2: `add_note` assigns the new id from the first element of
`free_ids` (which is removed) when `free_ids` is non-empty, and otherwise
uses the last stored note's id plus 1, or 1 for an empty list; in particular
from `free_ids = [1, 2]` and no notes, two adds yield ids 1 then 2 and leave
`free_ids` empty. -/
theorem C2_id_allocation :
    (∀ (d : NoteData) (now : Nat) (c : String) (ts : List String),
        ((addNoteData now c ts d).notes.getLast?).map Note.id
            = some (match d.free_ids with
                    | i :: _ => i
                    | [] =>
                      match d.notes.getLast? with
                      | some n => n.id + 1
                      | none => 1)
          ∧ (addNoteData now c ts d).free_ids = d.free_ids.tail)
    ∧ ((addNoteData 0 "a" [] { notes := [], free_ids := [1, 2] }).notes.map Note.id = [1]
       ∧ (addNoteData 1 "b" [] (addNoteData 0 "a" []
            { notes := [], free_ids := [1, 2] })).notes.map Note.id = [1, 2]
       ∧ (addNoteData 1 "b" [] (addNoteData 0 "a" []
            { notes := [], free_ids := [1, 2] })).free_ids = []) := by
  constructor
  · intro d now c ts
    constructor
    · cases hf : d.free_ids with
      | nil =>
        cases hl : d.notes.getLast? with
        | none => simp [addNoteData, hf, hl, List.getLast?_concat]
        | some n => simp [addNoteData, hf, hl, List.getLast?_concat]
      | cons i rest => simp [addNoteData, hf, List.getLast?_concat]
    · cases hf : d.free_ids with
      | nil => simp [addNoteData, hf]
      | cons i rest => simp [addNoteData, hf]
  · exact ⟨rfl, rfl, rfl⟩

/-- Claim C3: contrary to the spec, `clean_notes` does not reset the store to
a loadable empty collection: it writes the JSON array `[]`, which is present
and non-blank but does not deserialize as `NoteData`, so every subsequent
load fails with a malformed-store error instead of returning the empty
collection. -/
theorem C3_clean_then_load_fails (f : StoreFile) :
    load_notes (clean_notes f) = .error LoadErr.malformedStore := rfl

/-- Claim C4: `load_notes` returns the empty collection, not an error, for a
missing or blank backing file, and fails with a malformed-store error when
the file is present and non-blank but does not deserialize as `NoteData`. -/
theorem C4_load_cases :
    load_notes StoreFile.missing = .ok emptyData
    ∧ load_notes StoreFile.blank = .ok emptyData
    ∧ (∀ v : Json, parseNoteData v = none →
        load_notes (StoreFile.jsonText v) = .error LoadErr.malformedStore)
    ∧ load_notes StoreFile.notJson = .error LoadErr.malformedStore := by
  refine ⟨rfl, rfl, ?_, rfl⟩
  intro v hv
  simp [load_notes, hv]

/-- Witness for C4 at the concrete unparseable document `[]`. -/
theorem C4_load_cases_witness :
    load_notes (StoreFile.jsonText (Json.arr [])) = .error LoadErr.malformedStore :=
  C4_load_cases.2.2.1 (Json.arr []) rfl

/-- Claim C5: saving any collection and loading it back returns the same
collection — serialization through the JSON document is lossless for all
fields (id, content, tags, created_at, updated_at, free_ids). -/
theorem C5_save_load_roundtrip (d : NoteData) :
    load_notes (save_notes d) = .ok d := by
  simp [load_notes, save_notes, parseNoteData_encodeNoteData]


/-- Claim C6: for a non-empty tag list and a located note, `add_tag` appends
exactly the input tags not already present, first occurrences first (exact
string match), suppressing duplicates against both the existing tags and the
rest of the input; the operation is idempotent, and a tag not previously on
the note ends up with exactly one occurrence. -/
theorem C6_add_tag_dedup_idempotent (d : NoteData) (i : Nat) (tags : List String)
    (n : Note) (htags : tags ≠ [])
    (hn : d.notes.find? (fun m => m.id == i) = some n) :
    ((addTagData i tags d).1.notes.find? (fun m => m.id == i)
        = some { n with
            tags := n.tags ++ firstDedup (tags.filter (fun t => !(n.tags.contains t))) })
    ∧ (addTagData i tags (addTagData i tags d).1).1 = (addTagData i tags d).1
    ∧ (∀ t ∈ tags, t ∉ n.tags →
        (((addTagData i tags d).1.notes.find? (fun m => m.id == i)).map
            (fun m => m.tags.count t)) = some 1) := by
  have hE : tags.isEmpty = false := by
    cases tags with
    | nil => exact absurd rfl htags
    | cons t ts => rfl
  have hpn : (fun m : Note => m.id == i) n = true := @List.find?_some Note (fun m => m.id == i) n d.notes hn
  have hany : d.notes.any (fun m => m.id == i) = true :=
    List.any_eq_true.2 ⟨n, List.mem_of_find?_eq_some hn, hpn⟩
  have hstep : addTagData i tags d = ({ d with notes := updateFirst (fun m => m.id == i) (fun m => { m with tags := addTagsList tags m.tags }) d.notes }, true) := by
    simp [addTagData, hE, hany]
  have key : (updateFirst (fun m => m.id == i) (fun m => { m with tags := addTagsList tags m.tags }) d.notes).find? (fun m => m.id == i) = some { n with tags := addTagsList tags n.tags } :=
    find?_updateFirst _ _ _ n hn hpn
  refine ⟨?_, ?_, ?_⟩
  · rw [hstep]
    rw [← addTagsList_eq]
    exact key
  · rw [hstep]
    have hany2 : (updateFirst (fun m : Note => m.id == i) (fun m => { m with tags := addTagsList tags m.tags }) d.notes).any (fun m => m.id == i) = true :=
      List.any_eq_true.2
        ⟨{ n with tags := addTagsList tags n.tags },
         List.mem_of_find?_eq_some key, @List.find?_some Note (fun m => m.id == i) _ _ key⟩
    have hstep2 : addTagData i tags { d with notes := updateFirst (fun m => m.id == i) (fun m => { m with tags := addTagsList tags m.tags }) d.notes } = ({ d with notes := updateFirst (fun m => m.id == i) (fun m => { m with tags := addTagsList tags m.tags }) (updateFirst (fun m => m.id == i) (fun m => { m with tags := addTagsList tags m.tags }) d.notes) }, true) := by
      simp [addTagData, hE, hany2]
    rw [hstep2]
    have hidem := updateFirst_updateFirst (fun m : Note => m.id == i) (fun m => { m with tags := addTagsList tags m.tags }) d.notes (fun x => rfl) (fun x _ => by simp [addTagsList_idem])
    simp only [hidem]
  · intro t ht htn
    rw [hstep]
    rw [key]
    have hcount : (addTagsList tags n.tags).count t = 1 := by
      rw [addTagsList_eq, List.count_append]
      have h0 : n.tags.count t = 0 := List.count_eq_zero.2 htn
      have h1 : (firstDedup (tags.filter (fun u => !(n.tags.contains u)))).count t = 1 := by
        rw [count_firstDedup]
        simp [ht, htn]
      rw [h0, h1]
    simp [hcount]

/-- Witness for C6: adding "rust" twice to a fresh untagged note leaves
exactly one occurrence. -/
theorem C6_add_tag_witness :
    ((addTagData 1 ["rust", "rust"] { notes := [{ id := 1, content := "note", tags := [], created_at := 0, updated_at := 0 }], free_ids := [] }).1.notes.find? (fun m => m.id == 1)).map (fun m => m.tags.count "rust") = some 1 :=
  (C6_add_tag_dedup_idempotent
      { notes := [{ id := 1, content := "note", tags := [], created_at := 0, updated_at := 0 }], free_ids := [] }
      1 ["rust", "rust"]
      { id := 1, content := "note", tags := [], created_at := 0, updated_at := 0 }
      (by decide) rfl).2.2 "rust" (by decide) (by decide)

theorem noteLe_trans (method : SortMethod) (a b c : Note)
    (h1 : noteLe method a b = true) (h2 : noteLe method b c = true) :
    noteLe method a c = true := by
  cases method <;> simp [noteLe] at * <;> exact le_trans h1 h2

theorem noteLe_total (method : SortMethod) (a b : Note) :
    (noteLe method a b || noteLe method b a) = true := by
  cases method <;> simp [noteLe] <;> exact le_total _ _

/-- Claim C7: for a non-empty keyword, `search_note` leaves the file unchanged
and exits successfully, and its result list contains exactly the stored notes
whose content matches the keyword case-insensitively as a substring, ordered
by the requested sort key; "Hello World" matches both "hello" and "WORLD". -/
theorem C7_search_filter_sort_readonly (keyword : String) (method : SortMethod)
    (f : StoreFile) (d : NoteData) (hk : keyword ≠ "")
    (hf : load_notes f = .ok d) :
    (search_note keyword method f).1 = f
    ∧ (search_note keyword method f).2.1 = .success
    ∧ (∀ n : Note, n ∈ (search_note keyword method f).2.2
        ↔ n ∈ d.notes ∧ matchesKeyword keyword n = true)
    ∧ ((search_note keyword method f).2.2).Pairwise
        (fun a b => noteLe method a b = true)
    ∧ matchesKeyword "hello" { id := 1, content := "Hello World", tags := [], created_at := 0, updated_at := 0 } = true
    ∧ matchesKeyword "WORLD" { id := 1, content := "Hello World", tags := [], created_at := 0, updated_at := 0 } = true := by
  have hke : keyword.isEmpty = false := by
    cases h : keyword.isEmpty
    · rfl
    · exact absurd ((String.isEmpty_iff keyword).1 h) hk
  have hsf : search_note keyword method f = (f, .success, searchData keyword method d) := by
    simp [search_note, hf]
  rw [hsf]
  refine ⟨rfl, rfl, ?_, ?_, by decide, by decide⟩
  · intro n
    simp [searchData, hke, sortNotes, List.mem_mergeSort, List.mem_filter]
  · simp only [searchData, hke, Bool.false_eq_true, if_false, sortNotes]
    exact List.sorted_mergeSort (noteLe_trans method) (noteLe_total method) _

/-- Witness for C7 at keyword "x" on a missing store: no write happens and the
case-insensitive match examples hold. -/
theorem C7_search_witness :
    (search_note "x" SortMethod.id StoreFile.missing).1 = StoreFile.missing
    ∧ matchesKeyword "hello" { id := 1, content := "Hello World", tags := [], created_at := 0, updated_at := 0 } = true :=
  ⟨(C7_search_filter_sort_readonly "x" SortMethod.id StoreFile.missing emptyData
      (by decide) rfl).1,
   (C7_search_filter_sort_readonly "x" SortMethod.id StoreFile.missing emptyData
      (by decide) rfl).2.2.2.2.1⟩

/-- Claim C8: `edit_note` writes exactly when its preconditions hold — empty
content is a soft no-op with no write and a successful exit; a found note gets
its content replaced and `updated_at` set to now and the result persisted; a
missing id leaves the store unchanged and still exits successfully. -/
theorem C8_edit_write_conditions (now i : Nat) (c : String) (f : StoreFile)
    (d : NoteData) (hf : load_notes f = .ok d) :
    (c = "" → edit_note now i c f = (f, .success))
    ∧ (∀ n : Note, c ≠ "" → d.notes.find? (fun m => m.id == i) = some n →
        edit_note now i c f = (save_notes (editNoteData now i c d).1, .success)
        ∧ (editNoteData now i c d).1.notes.find? (fun m => m.id == i)
            = some { n with content := c, updated_at := now })
    ∧ (c ≠ "" → d.notes.find? (fun m => m.id == i) = none →
        edit_note now i c f = (f, .success)) := by
  refine ⟨?_, ?_, ?_⟩
  · intro hc
    subst hc
    have h0 : ("" : String).isEmpty = true := rfl
    simp [edit_note, hf, editNoteData, h0]
  · intro n hc hn
    have hce : c.isEmpty = false := by
      cases h : c.isEmpty
      · rfl
      · exact absurd ((String.isEmpty_iff c).1 h) hc
    have hpn : (fun m : Note => m.id == i) n = true :=
      @List.find?_some Note (fun m => m.id == i) n d.notes hn
    have hany : d.notes.any (fun m => m.id == i) = true :=
      List.any_eq_true.2 ⟨n, List.mem_of_find?_eq_some hn, hpn⟩
    have hstep : editNoteData now i c d = ({ d with notes := updateFirst (fun m => m.id == i) (fun m => { m with content := c, updated_at := now }) d.notes }, true) := by
      simp [editNoteData, hce, hany]
    constructor
    · simp [edit_note, hf, hstep]
    · rw [hstep]
      exact find?_updateFirst _ _ _ n hn hpn
  · intro hc hn
    have hce : c.isEmpty = false := by
      cases h : c.isEmpty
      · rfl
      · exact absurd ((String.isEmpty_iff c).1 h) hc
    have hany : d.notes.any (fun m => m.id == i) = false := by
      rw [List.any_eq_false]
      intro m hm
      exact List.find?_eq_none.1 hn m hm
    have hstep : editNoteData now i c d = (d, false) := by
      simp [editNoteData, hce, hany]
    simp [edit_note, hf, hstep]

/-- Witness for C8: editing absent id 99 with content "x" on a missing store
leaves the file unchanged and exits successfully. -/
theorem C8_edit_witness :
    edit_note 0 99 "x" StoreFile.missing = (StoreFile.missing, .success) :=
  (C8_edit_write_conditions 0 99 "x" StoreFile.missing emptyData rfl).2.2
    (by decide) rfl

theorem addNoteData_collapse (now : Nat) (c : String) (ts : List String)
    (d : NoteData) : addNoteData now c ts d = addNoteData' now now c ts d := rfl

/-- Counterexample to claim C9 as stated: when the clock advances between
`add_note`'s two `Utc::now()` calls (samples 0 then 1), the note it creates
has `created_at ≠ updated_at` — the program never computes that equality. -/
theorem C9_counterexample_two_samples :
    ((addNoteData' 0 1 "a" [] emptyData).notes.getLast?).map
        (fun n => decide (n.created_at = n.updated_at)) = some false := by decide

/-- Claim C9 (amended): a note created by add carries the two clock samples of
`add_note`'s two `Utc::now()` calls — `created_at` the first, `updated_at` the
second — so its `created_at ≤ updated_at` whenever the clock did not run
backwards between the calls, with equality exactly when the samples coincide;
and the invariant `created_at ≤ updated_at ≤ clock` is preserved by every
store operation run at later-or-equal clock samples — edit only moves
`updated_at` forward to its clock sample. -/
theorem C9_timestamps_two_clock :
    (∀ (nowC nowU : Nat) (c : String) (ts : List String) (d : NoteData),
        ∃ nn : Note, (addNoteData' nowC nowU c ts d).notes = d.notes ++ [nn]
          ∧ nn.created_at = nowC ∧ nn.updated_at = nowU)
    ∧ (∀ (t tC tU : Nat) (op : Op) (d : NoteData),
        t ≤ tC → tC ≤ tU → TimeInv t d → TimeInv tU (applyData' tC tU op d)) := by
  constructor
  · intro nowC nowU c ts d
    cases hfr : d.free_ids with
    | nil =>
      refine ⟨{ id := (match d.notes.getLast? with | some note => note.id + 1 | none => 1), content := c, tags := ts, created_at := nowC, updated_at := nowU }, ?_, rfl, rfl⟩
      simp [addNoteData', hfr]
    | cons j rest =>
      refine ⟨{ id := j, content := c, tags := ts, created_at := nowC, updated_at := nowU }, ?_, rfl, rfl⟩
      simp [addNoteData', hfr]
  · intro t tC tU op d htC htU hinv
    have htt : t ≤ tU := le_trans htC htU
    cases op with
    | add c ts =>
      intro n hn
      cases hfr : d.free_ids with
      | nil =>
        simp only [applyData', addNoteData', hfr] at hn
        rcases List.mem_append.1 hn with h | h
        · exact ⟨(hinv n h).1, le_trans (hinv n h).2 htt⟩
        · rw [List.mem_singleton.1 h]
          exact ⟨htU, le_refl _⟩
      | cons j rest =>
        simp only [applyData', addNoteData', hfr] at hn
        rcases List.mem_append.1 hn with h | h
        · exact ⟨(hinv n h).1, le_trans (hinv n h).2 htt⟩
        · rw [List.mem_singleton.1 h]
          exact ⟨htU, le_refl _⟩
    | remove i =>
      intro n hn
      simp only [applyData'] at hn
      cases hidx : d.notes.findIdx? (fun note => note.id == i) with
      | none =>
        simp only [removeNoteData, hidx] at hn
        exact ⟨(hinv n hn).1, le_trans (hinv n hn).2 htt⟩
      | some index =>
        simp only [removeNoteData, hidx] at hn
        have hm : n ∈ d.notes := mem_of_mem_swapRemove _ _ _ hn
        exact ⟨(hinv n hm).1, le_trans (hinv n hm).2 htt⟩
    | edit i c =>
      intro n hn
      simp only [applyData', editNoteData] at hn
      by_cases hce : c.isEmpty = true
      · simp only [hce, if_true] at hn
        exact ⟨(hinv n hn).1, le_trans (hinv n hn).2 htt⟩
      · simp only [hce, if_false] at hn
        by_cases hany : d.notes.any (fun m => m.id == i) = true
        · simp only [hany, if_true] at hn
          rcases mem_updateFirst _ _ _ _ hn with h | ⟨m, hm, hnm⟩
          · exact ⟨(hinv n h).1, le_trans (hinv n h).2 htt⟩
          · subst hnm
            exact ⟨le_trans (hinv m hm).1 (le_trans (hinv m hm).2 htt), le_refl _⟩
        · simp only [hany, if_false] at hn
          exact ⟨(hinv n hn).1, le_trans (hinv n hn).2 htt⟩
    | addTag i ts =>
      intro n hn
      simp only [applyData', addTagData] at hn
      by_cases hte : ts.isEmpty = true
      · simp only [hte, if_true] at hn
        exact ⟨(hinv n hn).1, le_trans (hinv n hn).2 htt⟩
      · simp only [hte, if_false] at hn
        by_cases hany : d.notes.any (fun m => m.id == i) = true
        · simp only [hany, if_true] at hn
          rcases mem_updateFirst _ _ _ _ hn with h | ⟨m, hm, hnm⟩
          · exact ⟨(hinv n h).1, le_trans (hinv n h).2 htt⟩
          · subst hnm
            exact ⟨(hinv m hm).1, le_trans (hinv m hm).2 htt⟩
        · simp only [hany, if_false] at hn
          exact ⟨(hinv n hn).1, le_trans (hinv n hn).2 htt⟩

/-- Witness for the amended C9: one add from the empty store with clock
samples 1 and 2 preserves the timestamp invariant at clock 2. -/
theorem C9_two_clock_witness :
    TimeInv 2 (applyData' 1 2 (Op.add "a" []) emptyData) :=
  C9_timestamps_two_clock.2 0 1 2 (Op.add "a" []) emptyData (Nat.zero_le 1)
    (by decide) (fun n hn => absurd hn (List.not_mem_nil n))

/-- Claim C10: `add_note` has no empty-content guard: with an empty content
string it still appends a note (with empty content and the given tags) and
persists the result with a successful exit, unlike the soft no-op branches of
edit, add-tag and search. -/
theorem C10_add_no_content_validation (now : Nat) (ts : List String)
    (f : StoreFile) (d : NoteData) (hf : load_notes f = .ok d) :
    add_note now "" ts f = (save_notes (addNoteData now "" ts d), .success)
    ∧ (∃ nn : Note, (addNoteData now "" ts d).notes = d.notes ++ [nn]
        ∧ nn.content = "" ∧ nn.tags = ts)
    ∧ (addNoteData now "" ts d).notes.length = d.notes.length + 1 := by
  refine ⟨by simp [add_note, hf], ?_, ?_⟩
  · cases hfr : d.free_ids with
    | nil =>
      refine ⟨{ id := (match d.notes.getLast? with | some note => note.id + 1 | none => 1), content := "", tags := ts, created_at := now, updated_at := now }, ?_, rfl, rfl⟩
      simp [addNoteData, hfr]
    | cons j rest =>
      refine ⟨{ id := j, content := "", tags := ts, created_at := now, updated_at := now }, ?_, rfl, rfl⟩
      simp [addNoteData, hfr]
  · cases hfr : d.free_ids with
    | nil => simp [addNoteData, hfr]
    | cons j rest => simp [addNoteData, hfr]

/-- Witness for C10 on a missing store: an add with empty content writes a
one-note collection. -/
theorem C10_add_witness :
    add_note 0 "" [] StoreFile.missing
      = (save_notes (addNoteData 0 "" [] emptyData), .success) :=
  (C10_add_no_content_validation 0 [] StoreFile.missing emptyData rfl).1
